import Mathlib

/-!
# The curry utility of `src/utils/curry.js`

A shallow embedding of `curry`, `remainingArity`, `add3` and `log`, and the
properties of the grouped application of curried functions.

JavaScript arrays of arguments are lists. The array methods used by the source
(`length`, `slice`, `concat`) build new arrays and leave their receiver as it
is, and the source assigns to no variable, so a callable is an immutable value.
A second model keeps the arrays in a store and is shown to agree with the first.
-/

namespace CurryJS

/-! ## JavaScript numbers and array slicing -/

/-- A JavaScript number in the position of `arity`. Every finite double is a
rational number, so `fin q` covers the finite numbers (the sign of zero plays no
role in `>=` and in `slice`); the three other values are `NaN`, `Infinity` and
`-Infinity`. -/
inductive JSNum where
  | fin (q : ℚ)
  | nan
  | posInf
  | negInf
deriving DecidableEq

/-- The number `n`, for an argument count or a declared parameter count. -/
def JSNum.ofNat (n : Nat) : JSNum := .fin (n : ℚ)

/-- The integer `i` as a number. -/
def JSNum.ofInt (i : Int) : JSNum := .fin (i : ℚ)

/-- The comparison `len >= arity` of line 8, `len` an array length. A comparison
with `NaN` is false. -/
def JSNum.lengthGe (len : Nat) : JSNum → Bool
  | .fin q => decide (q ≤ (len : ℚ))
  | .nan => false
  | .posInf => false
  | .negInf => true

/-- The operation ToIntegerOrInfinity on a finite number: truncation toward zero. -/
def truncate (q : ℚ) : Int := Int.tdiv q.num (q.den : Int)

/-- The final index of `Array.prototype.slice(0, e)` on an array of length `len`:
`NaN` converts to `0`; a negative end counts from the end of the array; the
result is clamped to `0 .. len`. -/
def sliceEnd (len : Nat) : JSNum → Nat
  | .nan => 0
  | .negInf => 0
  | .posInf => len
  | .fin q =>
    let relativeEnd := truncate q
    if relativeEnd < 0 then ((len : Int) + relativeEnd).toNat
    else min relativeEnd.toNat len

/-- The array `args.slice(0, e)`. -/
def slice0 {α : Type} (args : List α) (e : JSNum) : List α :=
  args.take (sliceEnd args.length e)

/-! ## Callables, outcomes and the curry transformation -/

/-- A target function: its declared formal-parameter count (`fn.length`) and its
behaviour on a `this` value and a list of actual arguments, which either returns
a value or throws. -/
structure Target (θ α ε β : Type) where
  length : Nat
  call : θ → List α → Except ε β

/-- The two kinds of function that one call of `curry` gives rise to:
`root` is the function `curried` returned by `curry` itself (line 7); `closure
thisVal args` is the arrow function of line 11, which has captured the `this` and
the `args` of the invocation of `curried` that created it. -/
inductive Callable (θ α : Type) where
  | root
  | closure (thisVal : θ) (args : List α)
deriving DecidableEq

/-- What an invocation does: it returns the value of the target function, returns a
further callable, throws the error of the target function, or fails with the
TypeError of JavaScript for calling something that is not a function. Values
returned by a target function are taken not to be functions. -/
inductive Outcome (θ α ε β : Type) where
  | returned (v : β)
  | callable (c : Callable θ α)
  | threw (e : ε)
  | notAFunction
deriving DecidableEq

/-- The outcome of `return fn.apply(...)`: the value or the error of the target,
handed on as it is. -/
def Outcome.ofExcept {θ α ε β : Type} : Except ε β → Outcome θ α ε β
  | .ok v => .returned v
  | .error e => .threw e

/-- An outcome together with the invocations of the target function that were
made on the way, each with its `this` value and its actual arguments. -/
structure Step (θ α ε β : Type) where
  outcome : Outcome θ α ε β
  calls : List (θ × List α)
deriving DecidableEq

/-- The variables that the functions created by one call of `curry` close over. -/
structure Curry (θ α ε β : Type) where
  fn : Target θ α ε β
  arity : JSNum

/-- The call `curry(fn, arity = fn.length)` (line 6); `none` is an omitted arity,
for which the default `fn.length` is taken. The function it returns is
`Callable.root` in the environment built here. -/
def curry {θ α ε β : Type} (fn : Target θ α ε β) (arity : Option JSNum) : Curry θ α ε β :=
  ⟨fn, arity.getD (JSNum.ofNat fn.length)⟩

/-- The body of `function curried(...args)` (lines 8 to 11), run with the given
`this` value. -/
def Curry.curried {θ α ε β : Type} (k : Curry θ α ε β) (thisVal : θ) (args : List α) :
    Step θ α ε β :=
  if k.arity.lengthGe args.length then
    let actual := slice0 args k.arity
    ⟨Outcome.ofExcept (k.fn.call thisVal actual), [(thisVal, actual)]⟩
  else
    ⟨.callable (.closure thisVal args), []⟩

/-- Invoking a callable with the arguments `next` from a call site whose `this` is
`thisVal`. The arrow function of line 11 ignores the `this` of its call site and
runs `curried.apply(this, args.concat(next))` with what it captured. -/
def Curry.invoke {θ α ε β : Type} (k : Curry θ α ε β) (thisVal : θ) :
    Callable θ α → List α → Step θ α ε β
  | .root, args => k.curried thisVal args
  | .closure t acc, next => k.curried t (acc ++ next)

/-- The rest of a chained call expression `f(g1)(g2)...(gk)` from the step reached
so far: each group is supplied to the callable returned by the call before it.
An error ends the evaluation, and calling a returned value is a TypeError. -/
def Curry.chainFrom {θ α ε β : Type} (k : Curry θ α ε β) (thisVal : θ) :
    Step θ α ε β → List (List α) → Step θ α ε β
  | s, [] => s
  | s, g :: gs =>
    match s.outcome with
    | .callable c =>
      let t := k.invoke thisVal c g
      k.chainFrom thisVal ⟨t.outcome, s.calls ++ t.calls⟩ gs
    | .returned _ => ⟨.notAFunction, s.calls⟩
    | .threw _ => s
    | .notAFunction => s

/-- The chained call expression `curry(fn, arity)(g1)(g2)...(gk)`. -/
def Curry.chain {θ α ε β : Type} (k : Curry θ α ε β) (thisVal : θ) (gs : List (List α)) :
    Step θ α ε β :=
  k.chainFrom thisVal ⟨.callable .root, []⟩ gs

/-! ## `remainingArity` -/

/-- The errors that the model needs: the TypeError of the runtime, and any other
value thrown by code of the caller (a getter, a conversion method), named by a
label. -/
inductive JSError where
  | typeError
  | thrown (label : String)
deriving DecidableEq

/-- A value that a `length` property can hold, as far as `||` and `Math.max` look
at it. The conversion of strings and of objects to numbers is not modelled: a
string is given with the number that ToNumber makes of it, and an object with the
outcome of its conversion, a number or what the conversion throws. -/
inductive JSVal where
  | undefined
  | null
  | bool (b : Bool)
  | num (x : JSNum)
  | str (s : String) (asNumber : JSNum)
  | bigint (i : Int)
  | symbol
  | object (asNumber : Except JSError JSNum)

/-- The conversion ToBoolean: `undefined`, `null`, `false`, `0`, `NaN`, the empty
string and `0n` are falsy, every other value is truthy. -/
def JSVal.toBoolean : JSVal → Bool
  | .undefined => false
  | .null => false
  | .bool b => b
  | .num (.fin q) => decide (q ≠ 0)
  | .num .nan => false
  | .num .posInf => true
  | .num .negInf => true
  | .str s _ => decide (s ≠ "")
  | .bigint i => decide (i ≠ 0)
  | .symbol => true
  | .object _ => true

/-- The conversion ToNumber, as `Math.max` applies it to an argument: a Symbol and a
BigInt raise a TypeError. -/
def JSVal.toNumber : JSVal → Except JSError JSNum
  | .undefined => .ok .nan
  | .null => .ok (.fin 0)
  | .bool true => .ok (.fin 1)
  | .bool false => .ok (.fin 0)
  | .num x => .ok x
  | .str _ asNumber => .ok asNumber
  | .bigint _ => .error .typeError
  | .symbol => .error .typeError
  | .object asNumber => asNumber

/-- The expression `x || 0`: `x` when it is truthy, else the number `0`. -/
def orZero (x : JSVal) : JSVal :=
  if x.toBoolean then x else .num (.fin 0)

/-- The call `Math.max(0, x)` on a number: `NaN` when `x` is `NaN`, else the larger of
the two. -/
def mathMax0 : JSNum → JSNum
  | .nan => .nan
  | .posInf => .posInf
  | .negInf => .fin 0
  | .fin q => .fin (max 0 q)

/-- The values that can be passed to `remainingArity`, as far as their `length`
property goes: `undefined`, `null`, a function with its declared parameter count,
a string with its number of code units, an array with its number of elements, and
any other value (a number, a boolean, an object, a function whose `length` has been
redefined), given by the outcome of reading its `length`: the value of the property,
`undefined` when there is none, or what a getter throws. -/
inductive JSArg where
  | undefined
  | null
  | func (declared : Nat)
  | str (units : Nat)
  | array (len : Nat)
  | other (length : Except JSError JSVal)

/-- The property read `fn.length`. Reading a property of `undefined` or `null`
throws a TypeError. -/
def JSArg.getLength : JSArg → Except JSError JSVal
  | .undefined => .error .typeError
  | .null => .error .typeError
  | .func declared => .ok (.num (JSNum.ofNat declared))
  | .str units => .ok (.num (JSNum.ofNat units))
  | .array len => .ok (.num (JSNum.ofNat len))
  | .other length => length

/-- The function `remainingArity(fn)`: `Math.max(0, fn.length || 0)`. -/
def remainingArity (fn : JSArg) : Except JSError JSNum :=
  match fn.getLength with
  | .error e => .error e
  | .ok l =>
    match (orZero l).toNumber with
    | .error e => .error e
    | .ok x => .ok (mathMax0 x)

/-- A function made by `curry` as an argument of `remainingArity`: both
`function curried(...args)` and the arrow function `(...next) => ...` have a rest
parameter only, which `length` does not count. -/
def Callable.toArg {θ α : Type} : Callable θ α → JSArg
  | .root => .func 0
  | .closure _ _ => .func 0

/-! ## The sample functions -/

/-- The JavaScript values the sample functions are run on: `undefined`, `NaN`,
integers (taken in the range where number arithmetic is exact) and strings. -/
inductive Val where
  | undefined
  | nan
  | num (n : Int)
  | str (s : String)
deriving DecidableEq

/-- The conversion ToString. -/
def Val.toStr : Val → String
  | .undefined => "undefined"
  | .nan => "NaN"
  | .num n => toString n
  | .str s => s

/-- The operator `+`: string concatenation when an operand is a string, else
numeric addition, which is `NaN` when an operand is `undefined` or `NaN`. -/
def Val.add : Val → Val → Val
  | .str s, v => .str (s ++ v.toStr)
  | .undefined, .str s => .str ("undefined" ++ s)
  | .nan, .str s => .str ("NaN" ++ s)
  | .num n, .str s => .str (toString n ++ s)
  | .num a, .num b => .num (a + b)
  | _, _ => .nan

/-- The formal parameter at position `i`: `undefined` when no argument was passed. -/
def param (args : List Val) (i : Nat) : Val := args.getD i .undefined

/-- The sample `add3 = (a,b,c) => a + b + c`. -/
def add3 {θ ε : Type} : Target θ Val ε Val :=
  ⟨3, fun _ args => .ok (((param args 0).add (param args 1)).add (param args 2))⟩

/-- The object literal `levels` of `log`, as a lookup of its own keys. -/
def levels (key : String) : Option String :=
  if key = "info" then some "ℹ️"
  else if key = "warn" then some "⚠️"
  else if key = "error" then some "❌"
  else none

/-- The sample `log = (prefix, level, message) => ...`, its first parameter written
`pfx` here: the template literal joins `levels[level] ?? ''`, a space, the first
parameter, a colon and a space, and the message. Keys that `levels` inherits from
`Object.prototype` are not modelled. -/
def log {θ ε : Type} : Target θ Val ε Val :=
  ⟨3, fun _ args =>
    let pfx := param args 0
    let level := param args 1
    let message := param args 2
    .ok (.str ((levels level.toStr).getD "" ++ " " ++ pfx.toStr ++ ": " ++ message.toStr))⟩

/-- A target of three parameters for the error-propagation example: it adds three
integers and throws when a parameter holds anything else. -/
def strictAdd3 {θ : Type} : Target θ Val String Val :=
  ⟨3, fun _ args =>
    match param args 0, param args 1, param args 2 with
    | .num a, .num b, .num c => .ok (.num (a + b + c))
    | _, _, _ => .error "invalid argument"⟩

/-! ## The engine on a store of arrays

The same functions with the arrays as objects of a store, each made by the rest
parameter of a call, by `slice` or by `concat`, and with the arrow function
holding the address of its `args`. -/

/-- A new array in the store: its address and the store that holds it. -/
def alloc {α : Type} (h : List (List α)) (a : List α) : Nat × List (List α) :=
  (h.length, h ++ [a])

/-- The elements of the array at an address. -/
def readAt {α : Type} (h : List (List α)) (r : Nat) : List α := h.getD r []

/-- The callables of the store model: the arrow function of line 11 holds its `this`
and the address of the array `args` it captured. -/
inductive RefCallable (θ : Type) where
  | root
  | closure (thisVal : θ) (argsAt : Nat)
deriving DecidableEq

/-- The outcomes of the store model. -/
inductive RefOutcome (θ ε β : Type) where
  | returned (v : β)
  | callable (c : RefCallable θ)
  | threw (e : ε)
  | notAFunction
deriving DecidableEq

/-- The outcome of `return fn.apply(...)` in the store model. -/
def RefOutcome.ofExcept {θ ε β : Type} : Except ε β → RefOutcome θ ε β
  | .ok v => .returned v
  | .error e => .threw e

/-- An outcome, the calls of the target made on the way, and the store afterwards. -/
structure RefStep (θ α ε β : Type) where
  outcome : RefOutcome θ ε β
  calls : List (θ × List α)
  heap : List (List α)
deriving DecidableEq

/-- The body of `curried` (lines 8 to 11) on the store, `argsAt` the address of the
array of its rest parameter: `args.slice(0, arity)` makes a new array, from which
`fn.apply` takes the actual arguments; the arrow function captures `args` itself. -/
def Curry.curriedRef {θ α ε β : Type} (k : Curry θ α ε β) (thisVal : θ) (argsAt : Nat)
    (h : List (List α)) : RefStep θ α ε β :=
  let args := readAt h argsAt
  if k.arity.lengthGe args.length then
    let sliced := alloc h (slice0 args k.arity)
    let actual := readAt sliced.2 sliced.1
    ⟨RefOutcome.ofExcept (k.fn.call thisVal actual), [(thisVal, actual)], sliced.2⟩
  else
    ⟨.callable (.closure thisVal argsAt), [], h⟩

/-- Invoking a callable on the store. The arguments of the call become the new array
of the rest parameter; the arrow function then makes `args.concat(next)`, a new
array, and `curried.apply` passes its elements, which become the array of the rest
parameter of `curried`. -/
def Curry.invokeRef {θ α ε β : Type} (k : Curry θ α ε β) (thisVal : θ) :
    RefCallable θ → List α → List (List α) → RefStep θ α ε β
  | .root, args, h =>
    let rest := alloc h args
    k.curriedRef thisVal rest.1 rest.2
  | .closure t argsAt, next, h =>
    let rest := alloc h next
    let joined := alloc rest.2 (readAt rest.2 argsAt ++ readAt rest.2 rest.1)
    let passed := alloc joined.2 (readAt joined.2 joined.1)
    k.curriedRef t passed.1 passed.2

/-- The rest of a chained call expression on the store. -/
def Curry.chainFromRef {θ α ε β : Type} (k : Curry θ α ε β) (thisVal : θ) :
    RefStep θ α ε β → List (List α) → RefStep θ α ε β
  | s, [] => s
  | s, g :: gs =>
    match s.outcome with
    | .callable c =>
      let u := k.invokeRef thisVal c g s.heap
      k.chainFromRef thisVal ⟨u.outcome, s.calls ++ u.calls, u.heap⟩ gs
    | .returned _ => ⟨.notAFunction, s.calls, s.heap⟩
    | .threw _ => s
    | .notAFunction => s

/-- The chained call expression `curry(fn, arity)(g1)(g2)...(gk)` on the store `h`. -/
def Curry.chainRef {θ α ε β : Type} (k : Curry θ α ε β) (thisVal : θ) (h : List (List α))
    (gs : List (List α)) : RefStep θ α ε β :=
  k.chainFromRef thisVal ⟨.callable .root, [], h⟩ gs

/-- The statements `step(c1...)` and then `step(c2...)`: the step of the second chain,
which starts from the same callable on the store that the first chain has left. -/
def Curry.secondUse {θ α ε β : Type} (k : Curry θ α ε β) (thisVal : θ)
    (step : RefStep θ α ε β) (c1 c2 : List (List α)) : RefStep θ α ε β :=
  k.chainFromRef thisVal ⟨step.outcome, step.calls, (k.chainFromRef thisVal step c1).heap⟩ c2

/-- What a callable of the store model is, read in a store: the arrow function with
the elements of the array it holds. -/
def RefCallable.view {θ α : Type} (h : List (List α)) : RefCallable θ → Callable θ α
  | .root => .root
  | .closure t argsAt => .closure t (readAt h argsAt)

/-- An outcome of the store model read in a store. -/
def RefOutcome.view {θ α ε β : Type} (h : List (List α)) : RefOutcome θ ε β → Outcome θ α ε β
  | .returned v => .returned v
  | .callable c => .callable (c.view h)
  | .threw e => .threw e
  | .notAFunction => .notAFunction

/-- A step of the store model read in its own store. -/
def RefStep.view {θ α ε β : Type} (s : RefStep θ α ε β) : Step θ α ε β :=
  ⟨s.outcome.view s.heap, s.calls⟩

/-- The address held by a callable is an address of the store. -/
def RefCallable.validIn {θ α : Type} (h : List (List α)) : RefCallable θ → Prop
  | .root => True
  | .closure _ argsAt => argsAt < h.length

/-- The callable of a step, when it is one, holds an address of the store of the step. -/
def RefStep.valid {θ α ε β : Type} (s : RefStep θ α ε β) : Prop :=
  match s.outcome with
  | .callable c => c.validIn s.heap
  | _ => True

/-! ## Numbers that are argument counts -/

theorem lengthGe_ofNat (len N : Nat) :
    JSNum.lengthGe len (JSNum.ofNat N) = decide (N ≤ len) := by
  simp [JSNum.lengthGe, JSNum.ofNat]

theorem truncate_natCast (N : Nat) : truncate (N : ℚ) = (N : Int) := by
  simp [truncate]

theorem sliceEnd_ofNat (len N : Nat) : sliceEnd len (JSNum.ofNat N) = min N len := by
  simp [sliceEnd, JSNum.ofNat, truncate_natCast]

theorem slice0_ofNat {α : Type} (args : List α) (N : Nat) :
    slice0 args (JSNum.ofNat N) = args.take N := by
  simp [slice0, sliceEnd_ofNat, List.take_eq_take]

theorem truncate_intCast (i : Int) : truncate (i : ℚ) = i := by
  simp [truncate]

/-- On a number that is not negative, truncation toward zero is the floor. -/
theorem truncate_of_nonneg (q : ℚ) (hq : 0 ≤ q) : (truncate q).toNat = ⌊q⌋₊ := by
  have hnum : 0 ≤ q.num := Rat.num_nonneg.mpr hq
  have hden : (0 : Int) ≤ (q.den : Int) := Int.ofNat_nonneg _
  rw [truncate, Int.tdiv_eq_ediv hnum hden, ← Rat.floor_def]
  rfl

/-! ## One invocation -/

section Engine

variable {θ α ε β : Type}

theorem curry_arity_some (fn : Target θ α ε β) (a : JSNum) : (curry fn (some a)).arity = a := rfl

theorem curry_fn (fn : Target θ α ε β) (a : Option JSNum) : (curry fn a).fn = fn := rfl

/-- With at least `N` arguments the body of `curried` calls the target once, on the
first `N` of them. -/
theorem curried_resolve (k : Curry θ α ε β) (N : Nat) (hk : k.arity = JSNum.ofNat N)
    (t : θ) (args : List α) (h : N ≤ args.length) :
    k.curried t args =
      ⟨Outcome.ofExcept (k.fn.call t (args.take N)), [(t, args.take N)]⟩ := by
  simp [Curry.curried, hk, lengthGe_ofNat, slice0_ofNat, h]

/-- With fewer than `N` arguments the body of `curried` returns the arrow function
that keeps all of them, and the target is not called. -/
theorem curried_accumulate (k : Curry θ α ε β) (N : Nat) (hk : k.arity = JSNum.ofNat N)
    (t : θ) (args : List α) (h : args.length < N) :
    k.curried t args = ⟨.callable (.closure t args), []⟩ := by
  simp [Curry.curried, hk, lengthGe_ofNat, Nat.not_le.mpr h]

/-- The function `curried` called with `this = t` behaves as the arrow function that
captured `t` and no arguments. -/
theorem invoke_root (k : Curry θ α ε β) (t : θ) (args : List α) :
    k.invoke t .root args = k.invoke t (.closure t []) args := by
  simp [Curry.invoke]

/-! ## Chains of invocations -/

theorem chainFrom_nil (k : Curry θ α ε β) (t : θ) (s : Step θ α ε β) :
    k.chainFrom t s [] = s := by
  simp [Curry.chainFrom]

theorem chainFrom_cons_callable (k : Curry θ α ε β) (t : θ) (c : Callable θ α)
    (cs : List (θ × List α)) (g : List α) (gs : List (List α)) :
    k.chainFrom t ⟨.callable c, cs⟩ (g :: gs) =
      k.chainFrom t ⟨(k.invoke t c g).outcome, cs ++ (k.invoke t c g).calls⟩ gs := by
  simp [Curry.chainFrom]

theorem chainFrom_append (k : Curry θ α ε β) (t : θ) (gs hs : List (List α)) :
    ∀ s : Step θ α ε β, k.chainFrom t s (gs ++ hs) = k.chainFrom t (k.chainFrom t s gs) hs := by
  induction gs with
  | nil => intro s; simp [Curry.chainFrom]
  | cons g gs ih =>
    intro s
    obtain ⟨o, cs⟩ := s
    cases o with
    | callable c => simp only [List.cons_append, chainFrom_cons_callable, ih]
    | returned v => cases hs <;> simp [Curry.chainFrom]
    | threw e => cases hs <;> simp [Curry.chainFrom]
    | notAFunction => cases hs <;> simp [Curry.chainFrom]

/-- Groups that leave the count below `N` are accumulated: the chain arrives at the
arrow function that holds their concatenation, and the target has not been called. -/
theorem chainFrom_accumulate (k : Curry θ α ε β) (N : Nat) (hk : k.arity = JSNum.ofNat N)
    (t u : θ) (cs : List (θ × List α)) (gs : List (List α)) :
    ∀ acc : List α, (acc ++ gs.flatten).length < N →
      k.chainFrom t ⟨.callable (.closure u acc), cs⟩ gs =
        ⟨.callable (.closure u (acc ++ gs.flatten)), cs⟩ := by
  induction gs with
  | nil => intro acc _; simp [Curry.chainFrom]
  | cons g gs ih =>
    intro acc h
    have h1 : (acc ++ g).length < N := by
      simp only [List.flatten_cons, List.length_append] at h ⊢
      omega
    have h2 : ((acc ++ g) ++ gs.flatten).length < N := by
      simpa [List.append_assoc] using h
    rw [chainFrom_cons_callable]
    simp only [Curry.invoke, curried_accumulate k N hk u (acc ++ g) h1, List.append_nil]
    rw [ih (acc ++ g) h2]
    simp [List.append_assoc]

/-- A chain from the function `curried` with at least one group continues as from
the arrow function that captured the `this` of the call site and no arguments. -/
theorem chain_cons (k : Curry θ α ε β) (t : θ) (g : List α) (gs : List (List α)) :
    k.chain t (g :: gs) = k.chainFrom t ⟨.callable (.closure t []), []⟩ (g :: gs) := by
  simp [Curry.chain, chainFrom_cons_callable, Curry.invoke]

/-- The chain that resolves at its last group: when the groups before the last
one leave the count below `N`, or there is none, and the last group brings it to
`N` or more, the target is called once, on the first `N` supplied values. -/
theorem chain_resolve (k : Curry θ α ε β) (N : Nat) (hk : k.arity = JSNum.ofNat N)
    (t : θ) (front : List (List α)) (last : List α)
    (hfront : front = [] ∨ front.flatten.length < N)
    (hlast : N ≤ (front.flatten ++ last).length) :
    k.chain t (front ++ [last]) =
      ⟨Outcome.ofExcept (k.fn.call t ((front.flatten ++ last).take N)),
        [(t, (front.flatten ++ last).take N)]⟩ := by
  rcases hfront with rfl | hlt
  · simp only [List.nil_append, List.flatten_nil] at hlast ⊢
    simp [Curry.chain, chainFrom_cons_callable, chainFrom_nil, Curry.invoke,
      curried_resolve k N hk t last hlast]
  · cases front with
    | nil =>
      simp only [List.nil_append, List.flatten_nil] at hlast ⊢
      simp [Curry.chain, chainFrom_cons_callable, chainFrom_nil, Curry.invoke,
        curried_resolve k N hk t last hlast]
    | cons g gs =>
      rw [List.cons_append, chain_cons, ← List.cons_append, chainFrom_append,
        chainFrom_accumulate k N hk t t [] (g :: gs) [] (by simpa using hlt)]
      rw [chainFrom_cons_callable, chainFrom_nil]
      simp only [Curry.invoke, List.nil_append]
      rw [curried_resolve k N hk t _ hlast]

/-! ## Arities of any kind -/

theorem lengthGe_mono (a : JSNum) (m n : Nat) (hmn : m ≤ n)
    (h : JSNum.lengthGe m a = true) : JSNum.lengthGe n a = true := by
  cases a with
  | fin q =>
    simp only [JSNum.lengthGe, decide_eq_true_eq] at h ⊢
    exact le_trans h (by exact_mod_cast hmn)
  | nan => simp [JSNum.lengthGe] at h
  | posInf => simp [JSNum.lengthGe] at h
  | negInf => rfl

/-- For a finite arity that is not negative, `slice` keeps the first `⌊q⌋` values. -/
theorem slice0_fin_nonneg (args : List α) (q : ℚ) (hq : 0 ≤ q) :
    slice0 args (JSNum.fin q) = args.take ⌊q⌋₊ := by
  have hnum : 0 ≤ q.num := Rat.num_nonneg.mpr hq
  have hden : (0 : Int) ≤ (q.den : Int) := Int.ofNat_nonneg _
  have hnn : ¬ truncate q < 0 := by
    rw [truncate, Int.tdiv_eq_ediv hnum hden]
    exact not_lt.mpr (Int.ediv_nonneg hnum hden)
  simp [slice0, sliceEnd, hnn, truncate_of_nonneg q hq, List.take_eq_take]

theorem curried_resolve_any (k : Curry θ α ε β) (t : θ) (args : List α)
    (h : k.arity.lengthGe args.length = true) :
    k.curried t args =
      ⟨Outcome.ofExcept (k.fn.call t (slice0 args k.arity)), [(t, slice0 args k.arity)]⟩ := by
  simp [Curry.curried, h]

theorem curried_accumulate_any (k : Curry θ α ε β) (t : θ) (args : List α)
    (h : k.arity.lengthGe args.length = false) :
    k.curried t args = ⟨.callable (.closure t args), []⟩ := by
  simp [Curry.curried, h]

/-- Groups that leave the comparison `length >= arity` false are accumulated. -/
theorem chainFrom_accumulate_any (k : Curry θ α ε β) (t u : θ) (cs : List (θ × List α))
    (gs : List (List α)) :
    ∀ acc : List α, k.arity.lengthGe (acc ++ gs.flatten).length = false →
      k.chainFrom t ⟨.callable (.closure u acc), cs⟩ gs =
        ⟨.callable (.closure u (acc ++ gs.flatten)), cs⟩ := by
  induction gs with
  | nil => intro acc _; simp [Curry.chainFrom]
  | cons g gs ih =>
    intro acc h
    have h2 : k.arity.lengthGe ((acc ++ g) ++ gs.flatten).length = false := by
      simpa [List.append_assoc] using h
    have h1 : k.arity.lengthGe (acc ++ g).length = false := by
      cases hc : k.arity.lengthGe (acc ++ g).length with
      | false => rfl
      | true =>
        have := lengthGe_mono k.arity (acc ++ g).length ((acc ++ g) ++ gs.flatten).length
          (by simp) hc
        rw [h2] at this
        exact absurd this (by simp)
    rw [chainFrom_cons_callable]
    simp only [Curry.invoke, curried_accumulate_any k u (acc ++ g) h1, List.append_nil]
    rw [ih (acc ++ g) h2]
    simp [List.append_assoc]

/-- The chain that resolves at its last group, for an arity of any kind. -/
theorem chain_resolve_any (k : Curry θ α ε β) (t : θ) (front : List (List α))
    (last : List α)
    (hfront : front = [] ∨ k.arity.lengthGe front.flatten.length = false)
    (hlast : k.arity.lengthGe (front.flatten ++ last).length = true) :
    k.chain t (front ++ [last]) =
      ⟨Outcome.ofExcept (k.fn.call t (slice0 (front.flatten ++ last) k.arity)),
        [(t, slice0 (front.flatten ++ last) k.arity)]⟩ := by
  cases front with
  | nil =>
    simp only [List.nil_append, List.flatten_nil] at hlast ⊢
    simp [Curry.chain, chainFrom_cons_callable, chainFrom_nil, Curry.invoke,
      curried_resolve_any k t last hlast]
  | cons g gs =>
    have hlt : k.arity.lengthGe (g :: gs).flatten.length = false := by
      rcases hfront with h | h
      · exact absurd h (by simp)
      · exact h
    rw [List.cons_append, chain_cons, ← List.cons_append, chainFrom_append,
      chainFrom_accumulate_any k t t [] (g :: gs) [] (by simpa using hlt)]
    rw [chainFrom_cons_callable, chainFrom_nil]
    simp only [Curry.invoke, List.nil_append]
    rw [curried_resolve_any k t _ hlast]

/-! ## The store model and the model on lists -/

theorem readAt_append_old (h more : List (List α)) (r : Nat) (hr : r < h.length) :
    readAt (h ++ more) r = readAt h r := by
  unfold readAt
  exact List.getD_append _ _ _ _ hr

theorem readAt_append_new (h : List (List α)) (a : List α) :
    readAt (h ++ [a]) h.length = a := by
  simp [readAt, List.getD_append_right]

theorem view_ofExcept (h : List (List α)) (x : Except ε β) :
    (RefOutcome.ofExcept x : RefOutcome θ ε β).view h = Outcome.ofExcept x := by
  cases x <;> rfl

/-- A callable reads the same in a store that has grown. -/
theorem RefCallable.view_append (h more : List (List α)) (c : RefCallable θ)
    (hc : c.validIn h) : c.view (h ++ more) = c.view h := by
  cases c with
  | root => rfl
  | closure u r => simp [RefCallable.view, readAt_append_old h more r hc]

/-- The body of `curried` on the store does what it does on lists, leaves a valid step,
and only adds arrays to the store. -/
theorem curriedRef_sound (k : Curry θ α ε β) (t : θ) (argsAt : Nat) (h : List (List α))
    (hr : argsAt < h.length) :
    (k.curriedRef t argsAt h).view = k.curried t (readAt h argsAt) ∧
      (k.curriedRef t argsAt h).valid ∧
      ∃ more, (k.curriedRef t argsAt h).heap = h ++ more := by
  unfold Curry.curriedRef Curry.curried
  by_cases hge : k.arity.lengthGe (readAt h argsAt).length = true
  · simp only [hge, if_true, alloc, readAt_append_new]
    exact ⟨by simp [RefStep.view, view_ofExcept],
      by cases k.fn.call t (slice0 (readAt h argsAt) k.arity) <;>
        simp [RefStep.valid, RefOutcome.ofExcept], ⟨_, rfl⟩⟩
  · simp only [hge, if_false]
    exact ⟨by simp [RefStep.view, RefOutcome.view, RefCallable.view],
      by simpa [RefStep.valid, RefCallable.validIn] using hr, ⟨[], by simp⟩⟩

/-- One invocation on the store does what it does on lists, leaves a valid step, and
only adds arrays to the store. -/
theorem invokeRef_sound (k : Curry θ α ε β) (t : θ) (c : RefCallable θ) (g : List α)
    (h : List (List α)) (hc : c.validIn h) :
    (k.invokeRef t c g h).view = k.invoke t (c.view h) g ∧
      (k.invokeRef t c g h).valid ∧
      ∃ more, (k.invokeRef t c g h).heap = h ++ more := by
  cases c with
  | root =>
    have hs := curriedRef_sound k t h.length (h ++ [g]) (by simp)
    rw [readAt_append_new] at hs
    obtain ⟨h1, h2, more, h3⟩ := hs
    refine ⟨by simpa [Curry.invokeRef, alloc, Curry.invoke, RefCallable.view] using h1,
      by simpa [Curry.invokeRef, alloc] using h2, [g] ++ more, ?_⟩
    simpa [Curry.invokeRef, alloc, List.append_assoc] using h3
  | closure u r =>
    have hr : r < h.length := hc
    have hrest : readAt (h ++ [g]) h.length = g := readAt_append_new h g
    have hold : readAt (h ++ [g]) r = readAt h r := readAt_append_old h [g] r hr
    have hjoin : readAt ((h ++ [g]) ++ [readAt h r ++ g]) (h ++ [g]).length =
        readAt h r ++ g := readAt_append_new _ _
    have hs := curriedRef_sound k u (((h ++ [g]) ++ [readAt h r ++ g]).length)
      (((h ++ [g]) ++ [readAt h r ++ g]) ++ [readAt h r ++ g]) (by simp)
    rw [readAt_append_new] at hs
    obtain ⟨h1, h2, more, h3⟩ := hs
    have hdef : k.invokeRef t (.closure u r) g h =
        k.curriedRef u (((h ++ [g]) ++ [readAt h r ++ g]).length)
          (((h ++ [g]) ++ [readAt h r ++ g]) ++ [readAt h r ++ g]) := by
      simp only [Curry.invokeRef, alloc, hrest, hold, hjoin]
    rw [hdef]
    refine ⟨by simpa [Curry.invoke, RefCallable.view] using h1, h2,
      [g] ++ [readAt h r ++ g] ++ [readAt h r ++ g] ++ more, ?_⟩
    rw [h3]
    simp [List.append_assoc]

/-- A chain on the store does what it does on lists, leaves a valid step, and only adds
arrays to the store. -/
theorem chainFromRef_sound (k : Curry θ α ε β) (t : θ) (gs : List (List α)) :
    ∀ s : RefStep θ α ε β, s.valid →
      (k.chainFromRef t s gs).view = k.chainFrom t s.view gs ∧
        (k.chainFromRef t s gs).valid ∧
        ∃ more, (k.chainFromRef t s gs).heap = s.heap ++ more := by
  induction gs with
  | nil =>
    intro s hs
    exact ⟨by simp [Curry.chainFromRef, Curry.chainFrom], by simpa [Curry.chainFromRef] using hs,
      [], by simp [Curry.chainFromRef]⟩
  | cons g gs ih =>
    intro s hs
    obtain ⟨o, cs, h⟩ := s
    cases o with
    | callable c =>
      have hc : c.validIn h := hs
      obtain ⟨h1, h2, more, h3⟩ := invokeRef_sound k t c g h hc
      obtain ⟨i1, i2, more2, i3⟩ := ih ⟨(k.invokeRef t c g h).outcome,
        cs ++ (k.invokeRef t c g h).calls, (k.invokeRef t c g h).heap⟩ h2
      have hstep : k.chainFromRef t ⟨.callable c, cs, h⟩ (g :: gs) =
          k.chainFromRef t ⟨(k.invokeRef t c g h).outcome,
            cs ++ (k.invokeRef t c g h).calls, (k.invokeRef t c g h).heap⟩ gs := by
        simp [Curry.chainFromRef]
      rw [hstep]
      refine ⟨?_, i2, more ++ more2, ?_⟩
      · rw [i1]
        have hv : (RefStep.mk (RefOutcome.callable c) cs h : RefStep θ α ε β).view =
            ⟨.callable (c.view h), cs⟩ := rfl
        rw [hv, chainFrom_cons_callable, ← h1]
        rfl
      · rw [i3]
        simp only [h3, List.append_assoc]
    | returned v =>
      exact ⟨by simp [Curry.chainFromRef, Curry.chainFrom, RefStep.view, RefOutcome.view],
        by simp [Curry.chainFromRef, RefStep.valid], [], by simp [Curry.chainFromRef]⟩
    | threw e =>
      exact ⟨by simp [Curry.chainFromRef, Curry.chainFrom, RefStep.view, RefOutcome.view],
        by simp [Curry.chainFromRef, RefStep.valid], [], by simp [Curry.chainFromRef]⟩
    | notAFunction =>
      exact ⟨by simp [Curry.chainFromRef, Curry.chainFrom, RefStep.view, RefOutcome.view],
        by simp [Curry.chainFromRef, RefStep.valid], [], by simp [Curry.chainFromRef]⟩

/-! ## The contract of the curry engine -/

/-- C1 (arity-sum): for every target `fn`, every arity `N ≥ 1`, every list `xs` of exactly
`N` arguments and every split of `xs` into consecutive non-empty groups, the chain
`curry(fn, N)(g1)...(gk)` calls `fn` once, on `xs` in the original order, and yields its
outcome. -/
theorem arity_sum (fn : Target θ α ε β) (N : Nat) (t : θ) (xs : List α) (gs : List (List α))
    (hN : 1 ≤ N) (hlen : xs.length = N) (hsplit : gs.flatten = xs)
    (hne : ∀ g ∈ gs, g ≠ []) :
    (curry fn (some (JSNum.ofNat N))).chain t gs =
      ⟨Outcome.ofExcept (fn.call t xs), [(t, xs)]⟩ := by
  rcases List.eq_nil_or_concat gs with rfl | ⟨front, last, rfl⟩
  · simp at hsplit
    subst hsplit
    simp at hlen
    omega
  · simp only [List.concat_eq_append] at hsplit hne ⊢
    have hl : last ≠ [] := hne last (by simp)
    have hpos : 0 < last.length := List.length_pos.mpr hl
    have hfl : (front ++ [last]).flatten = front.flatten ++ last := by simp
    rw [hfl] at hsplit
    have htot : (front.flatten ++ last).length = N := by rw [hsplit, hlen]
    have hfront : front.flatten.length < N := by
      rw [List.length_append] at htot
      omega
    have h := chain_resolve (curry fn (some (JSNum.ofNat N))) N rfl t front last
      (Or.inr hfront) (by omega)
    rw [h, curry_fn, hsplit, ← hlen, List.take_length]

/-- C2 (surplus truncation): for every target `fn`, every arity `N ≥ 0` and every chain of
groups whose accumulated count first reaches or exceeds `N` at the last invocation, the
chain calls `fn` once, on the first `N` values of the concatenation of the groups, and yields
its outcome; the surplus values raise nothing. -/
theorem surplus_truncation (fn : Target θ α ε β) (N : Nat) (t : θ) (gs : List (List α))
    (hne : gs ≠ [])
    (hbefore : ∀ i, i < gs.length → 0 < i → ((gs.take i).flatten).length < N)
    (hreach : N ≤ gs.flatten.length) :
    (curry fn (some (JSNum.ofNat N))).chain t gs =
      ⟨Outcome.ofExcept (fn.call t (gs.flatten.take N)), [(t, gs.flatten.take N)]⟩ := by
  rcases List.eq_nil_or_concat gs with rfl | ⟨front, last, rfl⟩
  · exact absurd rfl hne
  · simp only [List.concat_eq_append] at hbefore hreach ⊢
    have hfl : (front ++ [last]).flatten = front.flatten ++ last := by simp
    rw [hfl] at hreach ⊢
    have hfront : front = [] ∨ front.flatten.length < N := by
      cases front with
      | nil => exact Or.inl rfl
      | cons g rest =>
        right
        have := hbefore (g :: rest).length (by simp) (by simp)
        simpa using this
    exact chain_resolve (curry fn (some (JSNum.ofNat N))) N rfl t front last hfront hreach

/-- C3 (zero arity): for every target `fn` and every argument list, the first invocation
`curry(fn, 0)(...args)` calls `fn` with no arguments and yields its outcome, which is not a
further callable. -/
theorem zero_arity_resolves (fn : Target θ α ε β) (t : θ) (args : List α) :
    (curry fn (some (JSNum.ofNat 0))).invoke t .root args =
        ⟨Outcome.ofExcept (fn.call t []), [(t, [])]⟩ ∧
      ∀ c, ((curry fn (some (JSNum.ofNat 0))).invoke t .root args).outcome ≠ .callable c := by
  have h : (curry fn (some (JSNum.ofNat 0))).invoke t .root args =
      ⟨Outcome.ofExcept (fn.call t []), [(t, [])]⟩ := by
    have := curried_resolve (curry fn (some (JSNum.ofNat 0))) 0 rfl t args (Nat.zero_le _)
    simpa [Curry.invoke, curry_fn] using this
  refine ⟨h, ?_⟩
  intro c
  rw [h]
  cases fn.call t [] <;> simp [Outcome.ofExcept]

/-- C4 (error propagation): for every target `fn`, every arity `N` and every chain of groups
that resolves at its last invocation, each earlier invocation returns a callable and calls `fn`
not at all, and the last one calls `fn` once on the first `N` accumulated values and yields
exactly its outcome: the error `e` when `fn` throws `e`, the value when it returns one. -/
theorem error_propagation (fn : Target θ α ε β) (N : Nat) (t : θ) (gs : List (List α))
    (hne : gs ≠ [])
    (hbefore : ∀ i, i < gs.length → 0 < i → ((gs.take i).flatten).length < N)
    (hreach : N ≤ gs.flatten.length) :
    (∀ i, i < gs.length →
        ∃ c, (curry fn (some (JSNum.ofNat N))).chain t (gs.take i) = ⟨.callable c, []⟩) ∧
      ((curry fn (some (JSNum.ofNat N))).chain t gs).calls = [(t, gs.flatten.take N)] ∧
      (∀ e, fn.call t (gs.flatten.take N) = .error e →
        ((curry fn (some (JSNum.ofNat N))).chain t gs).outcome = .threw e) ∧
      (∀ v, fn.call t (gs.flatten.take N) = .ok v →
        ((curry fn (some (JSNum.ofNat N))).chain t gs).outcome = .returned v) := by
  have hfull : (curry fn (some (JSNum.ofNat N))).chain t gs =
      ⟨Outcome.ofExcept (fn.call t (gs.flatten.take N)), [(t, gs.flatten.take N)]⟩ := by
    rcases List.eq_nil_or_concat gs with rfl | ⟨front, last, rfl⟩
    · exact absurd rfl hne
    · simp only [List.concat_eq_append] at hbefore hreach ⊢
      have hfl : (front ++ [last]).flatten = front.flatten ++ last := by simp
      rw [hfl] at hreach ⊢
      have hfront : front = [] ∨ front.flatten.length < N := by
        cases front with
        | nil => exact Or.inl rfl
        | cons g rest =>
          right
          have := hbefore (g :: rest).length (by simp) (by simp)
          simpa using this
      exact chain_resolve (curry fn (some (JSNum.ofNat N))) N rfl t front last hfront hreach
  refine ⟨?_, ?_, ?_, ?_⟩
  · intro i hi
    cases htake : gs.take i with
    | nil => exact ⟨.root, rfl⟩
    | cons g rest =>
      have hpos : 0 < i := by
        rcases Nat.eq_zero_or_pos i with h0 | h0
        · subst h0
          simp at htake
        · exact h0
      have hlt := hbefore i hi hpos
      rw [htake] at hlt
      refine ⟨.closure t ([] ++ (g :: rest).flatten), ?_⟩
      rw [chain_cons]
      exact chainFrom_accumulate (curry fn (some (JSNum.ofNat N))) N rfl t t [] (g :: rest) []
        (by simpa using hlt)
  · rw [hfull]
  · intro e he
    rw [hfull, he]
    rfl
  · intro v hv
    rw [hfull, hv]
    rfl

/-- C5 (independence): for every target `fn`, every arity `N`, every store and every
intermediate function `step` reached from `curry(fn, N)` by groups that accumulate a list `A`
shorter than `N`: `step` is the arrow function holding `A`, with no call of `fn` made; a chain
`c1` applied to `step` leaves every array that existed before as it was; the result of `c2` on
`step` after `c1` has been applied is the result of `c2` on `step` without it; and the result
of each continuation is what a fresh chain supplied with `A` and then that continuation
returns. -/
theorem independence (fn : Target θ α ε β) (N : Nat) (t : θ) (h0 : List (List α))
    (gs c1 c2 : List (List α)) (hne : gs ≠ []) (hacc : gs.flatten.length < N) :
    ((curry fn (some (JSNum.ofNat N))).chainRef t h0 gs).view =
        ⟨.callable (.closure t gs.flatten), []⟩ ∧
      (∀ r, r < ((curry fn (some (JSNum.ofNat N))).chainRef t h0 gs).heap.length →
        readAt ((curry fn (some (JSNum.ofNat N))).chainFromRef t
            ((curry fn (some (JSNum.ofNat N))).chainRef t h0 gs) c1).heap r =
          readAt ((curry fn (some (JSNum.ofNat N))).chainRef t h0 gs).heap r) ∧
      ((curry fn (some (JSNum.ofNat N))).secondUse t
          ((curry fn (some (JSNum.ofNat N))).chainRef t h0 gs) c1 c2).view =
        ((curry fn (some (JSNum.ofNat N))).chainFromRef t
          ((curry fn (some (JSNum.ofNat N))).chainRef t h0 gs) c2).view ∧
      ((curry fn (some (JSNum.ofNat N))).chainFromRef t
          ((curry fn (some (JSNum.ofNat N))).chainRef t h0 gs) c1).view =
        (curry fn (some (JSNum.ofNat N))).chain t (gs.flatten :: c1) ∧
      ((curry fn (some (JSNum.ofNat N))).secondUse t
          ((curry fn (some (JSNum.ofNat N))).chainRef t h0 gs) c1 c2).view =
        (curry fn (some (JSNum.ofNat N))).chain t (gs.flatten :: c2) := by
  generalize hk : curry fn (some (JSNum.ofNat N)) = k
  have hN : k.arity = JSNum.ofNat N := by rw [← hk]; rfl
  -- the chains on lists
  have hpure : k.chain t gs = ⟨.callable (.closure t gs.flatten), []⟩ := by
    cases gs with
    | nil => exact absurd rfl hne
    | cons g rest =>
      rw [chain_cons]
      have := chainFrom_accumulate k N hN t t [] (g :: rest) [] (by simpa using hacc)
      simpa using this
  have hfresh : ∀ c : List (List α), k.chain t (gs.flatten :: c) =
      k.chainFrom t ⟨.callable (.closure t gs.flatten), []⟩ c := by
    intro c
    have h1 := chain_cons k t gs.flatten c
    have h2 := chainFrom_accumulate k N hN t t [] [gs.flatten] [] (by simpa using hacc)
    have h3 := chainFrom_append k t [gs.flatten] c ⟨.callable (.closure t []), []⟩
    rw [h1]
    simp only [List.singleton_append] at h3
    rw [h3, h2]
    simp
  -- the step on the store
  obtain ⟨s1, s2, -, -⟩ := chainFromRef_sound k t gs ⟨.callable .root, [], h0⟩ trivial
  have hview : (k.chainRef t h0 gs).view = ⟨.callable (.closure t gs.flatten), []⟩ := by
    rw [Curry.chainRef, s1, ← hpure]
    rfl
  have hvalid : (k.chainRef t h0 gs).valid := s2
  generalize k.chainRef t h0 gs = step at hview hvalid ⊢
  -- the first use
  obtain ⟨f1, -, more, f3⟩ := chainFromRef_sound k t c1 step hvalid
  -- the same callable on the store left by the first use
  have hsame : (RefStep.mk step.outcome step.calls (k.chainFromRef t step c1).heap).view =
      step.view ∧ (RefStep.mk step.outcome step.calls (k.chainFromRef t step c1).heap).valid := by
    obtain ⟨o, cs, h⟩ := step
    cases o with
    | callable c =>
      have hc : c.validIn h := hvalid
      simp only [f3]
      constructor
      · simp [RefStep.view, RefOutcome.view, RefCallable.view_append h more c hc]
      · cases c with
        | root => trivial
        | closure u r =>
          have hr : r < h.length := hc
          simp only [RefStep.valid, RefCallable.validIn, List.length_append]
          omega
    | returned v => exact ⟨rfl, trivial⟩
    | threw e => exact ⟨rfl, trivial⟩
    | notAFunction => exact ⟨rfl, trivial⟩
  obtain ⟨g1, -, -, -⟩ := chainFromRef_sound k t c2 _ hsame.2
  obtain ⟨d1, -, -, -⟩ := chainFromRef_sound k t c2 step hvalid
  refine ⟨hview, ?_, ?_, ?_, ?_⟩
  · intro r hr
    rw [f3]
    exact readAt_append_old _ _ r hr
  · rw [Curry.secondUse, g1, hsame.1, d1]
  · rw [f1, hview, hfresh]
  · rw [Curry.secondUse, g1, hsame.1, hview, hfresh]

/-- C6 (regrouping): for every target `fn`, every arity `N` and all argument lists `A` and `B`
with `A` shorter than `N`: `curry(fn, N)(...A)` is a callable, the arrow function holding `A`;
`curry(fn, N)(...A)(...B)` is the same step as `curry(fn, N)(...A, ...B)`, the outcome of `fn`
on the first `N` values when `A` and `B` have `N` values or more, and else the arrow function
holding all of `A ++ B`; supplying the empty list after `A` changes nothing. -/
theorem regrouping (fn : Target θ α ε β) (N : Nat) (t : θ) (A B : List α)
    (hA : A.length < N) :
    (curry fn (some (JSNum.ofNat N))).invoke t .root A = ⟨.callable (.closure t A), []⟩ ∧
      (curry fn (some (JSNum.ofNat N))).chain t [A, B] =
        (curry fn (some (JSNum.ofNat N))).chain t [A ++ B] ∧
      (N ≤ (A ++ B).length →
        (curry fn (some (JSNum.ofNat N))).chain t [A, B] =
          ⟨Outcome.ofExcept (fn.call t ((A ++ B).take N)), [(t, (A ++ B).take N)]⟩) ∧
      ((A ++ B).length < N →
        (curry fn (some (JSNum.ofNat N))).chain t [A, B] =
          ⟨.callable (.closure t (A ++ B)), []⟩) ∧
      (curry fn (some (JSNum.ofNat N))).chain t [A, []] =
        (curry fn (some (JSNum.ofNat N))).chain t [A] := by
  have hinv : (curry fn (some (JSNum.ofNat N))).invoke t .root A =
      ⟨.callable (.closure t A), []⟩ := by
    simp [Curry.invoke, curried_accumulate (curry fn (some (JSNum.ofNat N))) N rfl t A hA]
  have hAB : ∀ C : List α, (curry fn (some (JSNum.ofNat N))).chain t [A, C] =
      (curry fn (some (JSNum.ofNat N))).chain t [A ++ C] := by
    intro C
    have hcur := curried_accumulate (curry fn (some (JSNum.ofNat N))) N rfl t A hA
    simp [Curry.chain, chainFrom_cons_callable, chainFrom_nil, Curry.invoke, hcur]
  refine ⟨hinv, hAB B, ?_, ?_, ?_⟩
  · intro h
    rw [hAB B]
    simpa using chain_resolve (curry fn (some (JSNum.ofNat N))) N rfl t [] (A ++ B)
      (Or.inl rfl) (by simpa using h)
  · intro h
    rw [hAB B]
    simp [Curry.chain, chainFrom_cons_callable, chainFrom_nil, Curry.invoke,
      curried_accumulate (curry fn (some (JSNum.ofNat N))) N rfl t (A ++ B) h]
  · rw [hAB []]
    simp

/-- C7, as amended: for every target `fn` of arity `N` and every sequence of groups, each of
zero or more values, that ends with a last group, has lengths summing to exactly `N`, and in
which the last group is not empty unless it is the only one, the chain calls `fn` once on all
`N` values in their original order and yields its outcome. -/
theorem grouped_invariant (fn : Target θ α ε β) (N : Nat) (t : θ)
    (front : List (List α)) (last : List α)
    (hlast : front = [] ∨ last ≠ [])
    (hsum : (front ++ [last]).flatten.length = N) :
    (curry fn (some (JSNum.ofNat N))).chain t (front ++ [last]) =
      ⟨Outcome.ofExcept (fn.call t (front ++ [last]).flatten),
        [(t, (front ++ [last]).flatten)]⟩ := by
  have hfl : (front ++ [last]).flatten = front.flatten ++ last := by simp
  rw [hfl] at hsum ⊢
  have hfront : front = [] ∨ front.flatten.length < N := by
    rcases hlast with h | h
    · exact Or.inl h
    · right
      have hpos : 0 < last.length := List.length_pos.mpr h
      rw [List.length_append] at hsum
      omega
  have h := chain_resolve (curry fn (some (JSNum.ofNat N))) N rfl t front last hfront
    (by omega)
  rw [h, curry_fn, ← hsum, List.take_length]

end Engine

/-! ## The logger, `remainingArity` and arities that are not counts -/

/-- C8 (logger): for all strings `pfx` and `message` and every level among `info`, `warn` and
`error`, `curry(log)(pfx)(level)(message)` returns the icon of the level, a space, `pfx`, a
colon and a space, and `message`. -/
theorem logger_example {θ ε : Type} (t : θ) (pfx level message : String)
    (hlevel : level = "info" ∨ level = "warn" ∨ level = "error") :
    ((curry (log : Target θ Val ε Val) none).chain t
        [[.str pfx], [.str level], [.str message]]).outcome =
      .returned (.str ((if level = "info" then "ℹ️" else if level = "warn" then "⚠️" else "❌")
        ++ " " ++ pfx ++ ": " ++ message)) := by
  have h := chain_resolve (curry (log : Target θ Val ε Val) none) 3 rfl t
    [[.str pfx], [.str level]] [.str message] (Or.inr (by simp)) (by simp)
  simp only [List.cons_append, List.nil_append] at h
  rw [h]
  rcases hlevel with rfl | rfl | rfl <;>
    simp [curry, log, param, levels, Val.toStr, Outcome.ofExcept]

/-- C9, as amended: `remainingArity(fn)` is `Math.max(0, fn.length || 0)` with no check that
`fn` is a function. It throws a TypeError on `undefined` and `null` and hands on what a getter
of `length` throws. It returns the declared parameter count of a function, the length of a
string or an array, and `0` for a function made by `curry`. For any other value it returns `0`
when `length` is absent or falsy, a TypeError when `length` is a Symbol or a BigInt other than
`0n`, and else `Math.max` of `0` and the number that `length` converts to: the number itself
when it is positive, fractions and `Infinity` included, `0` when it is negative, and `NaN`
when a string or an object converts to `NaN`. A number it returns is `NaN`, `Infinity` or a
finite number that is not negative. -/
theorem remainingArity_spec (θ α : Type) :
    (remainingArity .undefined = .error .typeError ∧
      remainingArity .null = .error .typeError ∧
      ∀ e, remainingArity (.other (.error e)) = .error e) ∧
    ((∀ n : Nat, remainingArity (.func n) = .ok (JSNum.ofNat n)) ∧
      (∀ n : Nat, remainingArity (.str n) = .ok (JSNum.ofNat n)) ∧
      (∀ n : Nat, remainingArity (.array n) = .ok (JSNum.ofNat n)) ∧
      ∀ c : Callable θ α, remainingArity c.toArg = .ok (JSNum.ofNat 0)) ∧
    (∀ v : JSVal, v.toBoolean = false →
      remainingArity (.other (.ok v)) = .ok (JSNum.ofNat 0)) ∧
    (remainingArity (.other (.ok .symbol)) = .error .typeError ∧
      ∀ i : Int, i ≠ 0 → remainingArity (.other (.ok (.bigint i))) = .error .typeError) ∧
    (remainingArity (.other (.ok (.bool true))) = .ok (JSNum.ofNat 1) ∧
      (∀ q : ℚ, 0 < q → remainingArity (.other (.ok (.num (.fin q)))) = .ok (.fin q)) ∧
      (∀ q : ℚ, q < 0 → remainingArity (.other (.ok (.num (.fin q)))) = .ok (JSNum.ofNat 0)) ∧
      remainingArity (.other (.ok (.num .posInf))) = .ok .posInf ∧
      remainingArity (.other (.ok (.num .negInf))) = .ok (JSNum.ofNat 0)) ∧
    ((∀ (s : String) (x : JSNum), s ≠ "" →
        remainingArity (.other (.ok (.str s x))) = .ok (mathMax0 x)) ∧
      (∀ x : JSNum, remainingArity (.other (.ok (.object (.ok x)))) = .ok (mathMax0 x)) ∧
      (∀ e, remainingArity (.other (.ok (.object (.error e)))) = .error e) ∧
      mathMax0 .nan = .nan) ∧
    ∀ (fn : JSArg) (x : JSNum), remainingArity fn = .ok x →
      x = .nan ∨ x = .posInf ∨ ∃ q : ℚ, 0 ≤ q ∧ x = .fin q := by
  have hcount : ∀ n : Nat, remainingArity (.other (.ok (.num (JSNum.ofNat n)))) =
      .ok (JSNum.ofNat n) := by
    intro n
    rcases Nat.eq_zero_or_pos n with h | h
    · subst h
      simp [remainingArity, JSArg.getLength, orZero, JSVal.toBoolean, JSVal.toNumber,
        mathMax0, JSNum.ofNat]
    · have hq : (n : ℚ) ≠ 0 := by exact_mod_cast (Nat.pos_iff_ne_zero.mp h)
      simp [remainingArity, JSArg.getLength, orZero, JSVal.toBoolean, JSVal.toNumber,
        mathMax0, JSNum.ofNat, hq]
  have hmax : ∀ x : JSNum, mathMax0 x = .nan ∨ mathMax0 x = .posInf ∨
      ∃ q : ℚ, 0 ≤ q ∧ mathMax0 x = .fin q := by
    intro x
    cases x with
    | fin q => exact Or.inr (Or.inr ⟨max 0 q, le_max_left _ _, rfl⟩)
    | nan => exact Or.inl rfl
    | posInf => exact Or.inr (Or.inl rfl)
    | negInf => exact Or.inr (Or.inr ⟨0, le_refl _, rfl⟩)
  refine ⟨⟨rfl, rfl, fun e => rfl⟩, ⟨hcount, hcount, hcount, ?_⟩, ?_, ⟨rfl, ?_⟩,
    ⟨rfl, ?_, ?_, rfl, ?_⟩, ⟨?_, ?_, ?_, rfl⟩, ?_⟩
  · intro c
    cases c <;> exact hcount 0
  · intro v hv
    simp [remainingArity, JSArg.getLength, orZero, hv, JSVal.toNumber, mathMax0, JSNum.ofNat]
  · intro i hi
    simp [remainingArity, JSArg.getLength, orZero, JSVal.toBoolean, hi, JSVal.toNumber]
  · intro q hq
    simp [remainingArity, JSArg.getLength, orZero, JSVal.toBoolean, ne_of_gt hq,
      JSVal.toNumber, mathMax0, le_of_lt hq]
  · intro q hq
    simp [remainingArity, JSArg.getLength, orZero, JSVal.toBoolean, ne_of_lt hq,
      JSVal.toNumber, mathMax0, le_of_lt hq, JSNum.ofNat]
  · simp [remainingArity, JSArg.getLength, orZero, JSVal.toBoolean, JSVal.toNumber, mathMax0,
      JSNum.ofNat]
  · intro s x hs
    simp [remainingArity, JSArg.getLength, orZero, JSVal.toBoolean, hs, JSVal.toNumber]
  · intro x
    simp [remainingArity, JSArg.getLength, orZero, JSVal.toBoolean, JSVal.toNumber]
  · intro e
    simp [remainingArity, JSArg.getLength, orZero, JSVal.toBoolean, JSVal.toNumber]
  · intro fn x hx
    unfold remainingArity at hx
    cases hl : fn.getLength with
    | error e => simp [hl] at hx
    | ok l =>
      cases hn : (orZero l).toNumber with
      | error e => simp [hl, hn] at hx
      | ok y =>
        simp only [hl, hn, Except.ok.injEq] at hx
        rw [← hx]
        exact hmax y

/-- C10, as amended: `curry` validates no arity and rejects none. For every target `fn` and
every negative integer arity `-m`, the first invocation of `curry(fn, -m)`, with any
arguments, calls `fn` once on the arguments without their last `m` values and yields its
outcome. For every finite arity `q ≥ 0`, integer or not, the chain of `curry(fn, q)` returns a
callable, the arrow function holding all values supplied so far, as long as the accumulated
count is below `q`, and the invocation that brings the count to `q` or more calls `fn` once, on
the first `⌊q⌋` of the accumulated values, and yields its outcome. -/
theorem invalid_arity_accepted {θ α ε β : Type} (fn : Target θ α ε β) (t : θ) :
    (∀ (m : Nat) (args : List α), 0 < m →
        (curry fn (some (JSNum.ofInt (-(m : Int))))).chain t [args] =
          ⟨Outcome.ofExcept (fn.call t (args.take (args.length - m))),
            [(t, args.take (args.length - m))]⟩) ∧
      (∀ (q : ℚ) (gs : List (List α)), 0 ≤ q → gs ≠ [] →
        (∀ i, i < gs.length → 0 < i → (((gs.take i).flatten.length : Nat) : ℚ) < q) →
        q ≤ ((gs.flatten.length : Nat) : ℚ) →
        (curry fn (some (JSNum.fin q))).chain t gs =
          ⟨Outcome.ofExcept (fn.call t (gs.flatten.take ⌊q⌋₊)),
            [(t, gs.flatten.take ⌊q⌋₊)]⟩) ∧
      (∀ (q : ℚ) (gs : List (List α)), gs ≠ [] →
        ((gs.flatten.length : Nat) : ℚ) < q →
        (curry fn (some (JSNum.fin q))).chain t gs =
          ⟨.callable (.closure t gs.flatten), []⟩) := by
  refine ⟨?_, ?_, ?_⟩
  · intro m args hm
    have hle : (((-(m : Int)) : Int) : ℚ) ≤ (args.length : ℚ) := by
      have h1 : (0 : ℚ) ≤ (m : ℚ) := Nat.cast_nonneg m
      have h2 : (0 : ℚ) ≤ (args.length : ℚ) := Nat.cast_nonneg _
      push_cast
      linarith
    have hneg : -(m : Int) < 0 := by omega
    have hend : ((args.length : Int) + -(m : Int)).toNat = args.length - m := by omega
    have htr : truncate (((-(m : Int)) : Int) : ℚ) = -(m : Int) := truncate_intCast _
    have hge : (curry fn (some (JSNum.ofInt (-(m : Int))))).arity.lengthGe
        ([] ++ args : List α).length = true := by
      simp only [curry, Option.getD_some, JSNum.ofInt, JSNum.lengthGe, List.nil_append,
        decide_eq_true hle]
    have h := chain_resolve_any (curry fn (some (JSNum.ofInt (-(m : Int))))) t [] args
      (Or.inl rfl) hge
    simp only [List.nil_append, List.flatten_nil] at h
    rw [h]
    simp only [curry, Option.getD_some, JSNum.ofInt, slice0, sliceEnd, htr, hneg, hend,
      if_true]
  · intro q gs hq hne hbefore hreach
    rcases List.eq_nil_or_concat gs with rfl | ⟨front, last, rfl⟩
    · exact absurd rfl hne
    · simp only [List.concat_eq_append] at hbefore hreach ⊢
      have hfl : (front ++ [last]).flatten = front.flatten ++ last := by simp
      rw [hfl] at hreach ⊢
      have hfront : front = [] ∨
          (curry fn (some (JSNum.fin q))).arity.lengthGe front.flatten.length = false := by
        cases front with
        | nil => exact Or.inl rfl
        | cons g rest =>
          right
          have := hbefore (g :: rest).length (by simp) (by simp)
          simp only [List.take_left'] at this
          simpa [curry, JSNum.lengthGe] using this
      have hlast : (curry fn (some (JSNum.fin q))).arity.lengthGe
          (front.flatten ++ last).length = true := by
        simpa [curry, JSNum.lengthGe] using hreach
      rw [chain_resolve_any (curry fn (some (JSNum.fin q))) t front last hfront hlast]
      simp only [curry, Option.getD_some, slice0_fin_nonneg _ q hq]
  · intro q gs hne hlt
    cases gs with
    | nil => exact absurd rfl hne
    | cons g rest =>
      rw [chain_cons]
      have := chainFrom_accumulate_any (curry fn (some (JSNum.fin q))) t t [] (g :: rest) []
        (by simpa [curry, JSNum.lengthGe] using hlt)
      simpa using this

/-! ## The examples of the specification, run on the embedding -/

/-- The four groupings of `add3` on `1, 2, 3` resolve to `6` by the arity-sum theorem. -/
theorem arity_sum_witness :
    (curry (add3 : Target Unit Val Unit Val) (some (JSNum.ofNat 3))).chain ()
        [[.num 1], [.num 2], [.num 3]] = ⟨.returned (.num 6), [((), [.num 1, .num 2, .num 3])]⟩ ∧
      (curry (add3 : Target Unit Val Unit Val) (some (JSNum.ofNat 3))).chain ()
        [[.num 1, .num 2], [.num 3]] = ⟨.returned (.num 6), [((), [.num 1, .num 2, .num 3])]⟩ ∧
      (curry (add3 : Target Unit Val Unit Val) (some (JSNum.ofNat 3))).chain ()
        [[.num 1], [.num 2, .num 3]] = ⟨.returned (.num 6), [((), [.num 1, .num 2, .num 3])]⟩ ∧
      (curry (add3 : Target Unit Val Unit Val) (some (JSNum.ofNat 3))).chain ()
        [[.num 1, .num 2, .num 3]] = ⟨.returned (.num 6), [((), [.num 1, .num 2, .num 3])]⟩ :=
  ⟨arity_sum add3 3 () [.num 1, .num 2, .num 3] [[.num 1], [.num 2], [.num 3]]
      (by decide) rfl rfl (by decide),
    arity_sum add3 3 () [.num 1, .num 2, .num 3] [[.num 1, .num 2], [.num 3]]
      (by decide) rfl rfl (by decide),
    arity_sum add3 3 () [.num 1, .num 2, .num 3] [[.num 1], [.num 2, .num 3]]
      (by decide) rfl rfl (by decide),
    arity_sum add3 3 () [.num 1, .num 2, .num 3] [[.num 1, .num 2, .num 3]]
      (by decide) rfl rfl (by decide)⟩

/-- The call `curry(add3)(1,2,3,4)` gives `6`, and so does `curry(add3)(1)(2,3,4,5)`: the
surplus values are dropped. -/
theorem surplus_truncation_witness :
    (curry (add3 : Target Unit Val Unit Val) (some (JSNum.ofNat 3))).chain ()
        [[.num 1, .num 2, .num 3, .num 4]] =
        ⟨.returned (.num 6), [((), [.num 1, .num 2, .num 3])]⟩ ∧
      (curry (add3 : Target Unit Val Unit Val) (some (JSNum.ofNat 3))).chain ()
        [[.num 1], [.num 2, .num 3, .num 4, .num 5]] =
        ⟨.returned (.num 6), [((), [.num 1, .num 2, .num 3])]⟩ :=
  ⟨surplus_truncation add3 3 () [[.num 1, .num 2, .num 3, .num 4]]
      (by decide) (by decide) (by decide),
    surplus_truncation add3 3 () [[.num 1], [.num 2, .num 3, .num 4, .num 5]]
      (by decide) (by decide) (by decide)⟩

/-- The chain `curry(strictAdd3)(1)(2)("x")`: the first two calls return callables without a
call of the target, and the third throws the error of the target. -/
theorem error_propagation_witness :
    (∀ i, i < 3 → ∃ c,
        (curry (strictAdd3 : Target Unit Val String Val) (some (JSNum.ofNat 3))).chain ()
          ([[Val.num 1], [Val.num 2], [Val.str "x"]].take i) = ⟨.callable c, []⟩) ∧
      ((curry (strictAdd3 : Target Unit Val String Val) (some (JSNum.ofNat 3))).chain ()
          [[.num 1], [.num 2], [.str "x"]]).outcome = .threw "invalid argument" :=
  ⟨(error_propagation strictAdd3 3 () [[.num 1], [.num 2], [.str "x"]]
      (by decide) (by decide) (by decide)).1,
    (error_propagation strictAdd3 3 () [[.num 1], [.num 2], [.str "x"]]
      (by decide) (by decide) (by decide)).2.2.1 "invalid argument" rfl⟩

/-- With `step = curry(add3)(1)`, the chain `step(2)(3)` gives `6`, and `step(5)(6)` run after
it gives `12`. -/
theorem independence_witness :
    ((curry (add3 : Target Unit Val Unit Val) (some (JSNum.ofNat 3))).chainFromRef ()
          ((curry (add3 : Target Unit Val Unit Val) (some (JSNum.ofNat 3))).chainRef () []
            [[.num 1]]) [[.num 2], [.num 3]]).view =
        ⟨.returned (.num 6), [((), [.num 1, .num 2, .num 3])]⟩ ∧
      ((curry (add3 : Target Unit Val Unit Val) (some (JSNum.ofNat 3))).secondUse ()
          ((curry (add3 : Target Unit Val Unit Val) (some (JSNum.ofNat 3))).chainRef () []
            [[.num 1]]) [[.num 2], [.num 3]] [[.num 5], [.num 6]]).view =
        ⟨.returned (.num 12), [((), [.num 1, .num 5, .num 6])]⟩ :=
  ⟨(independence add3 3 () [] [[.num 1]] [[.num 2], [.num 3]] [[.num 5], [.num 6]]
      (by decide) (by decide)).2.2.2.1,
    (independence add3 3 () [] [[.num 1]] [[.num 2], [.num 3]] [[.num 5], [.num 6]]
      (by decide) (by decide)).2.2.2.2⟩

/-- The chains `curry(add3)(1)(2,3)` and `curry(add3)(1,2,3)` are the same step. -/
theorem regrouping_witness :
    (curry (add3 : Target Unit Val Unit Val) (some (JSNum.ofNat 3))).chain ()
        [[.num 1], [.num 2, .num 3]] =
      (curry (add3 : Target Unit Val Unit Val) (some (JSNum.ofNat 3))).chain ()
        [[.num 1, .num 2, .num 3]] :=
  (regrouping add3 3 () [.num 1] [.num 2, .num 3] (by decide)).2.1

/-- C7 as stated fails: the groups `(1,2,3)` and `()` have lengths summing to `3`, yet
`curry(add3, 3)(1,2,3)()` calls the number `6` returned by the first invocation, which is a
TypeError and not the value `add3(1,2,3) = 6`. -/
theorem grouped_invariant_counterexample :
    ([[Val.num 1, Val.num 2, Val.num 3], []] : List (List Val)).flatten.length = 3 ∧
      ((curry (add3 : Target Unit Val Unit Val) (some (JSNum.ofNat 3))).chain ()
        [[.num 1, .num 2, .num 3], []]).outcome = .notAFunction ∧
      ((curry (add3 : Target Unit Val Unit Val) (some (JSNum.ofNat 3))).chain ()
        [[.num 1, .num 2, .num 3], []]).outcome ≠
        Outcome.ofExcept ((add3 : Target Unit Val Unit Val).call ()
          ([[Val.num 1, Val.num 2, Val.num 3], []] : List (List Val)).flatten) := by
  decide

/-- An empty group in the middle is harmless: `curry(add3, 3)(1)()(2,3)` gives `6`. -/
theorem grouped_invariant_witness :
    (curry (add3 : Target Unit Val Unit Val) (some (JSNum.ofNat 3))).chain ()
        [[.num 1], [], [.num 2, .num 3]] =
      ⟨.returned (.num 6), [((), [.num 1, .num 2, .num 3])]⟩ :=
  grouped_invariant add3 3 () [[.num 1], []] [.num 2, .num 3] (Or.inr (by decide)) rfl

/-- The two logger examples: `ℹ️ APP: ready` and `⚠️ APP: Low battery`. -/
theorem logger_example_witness :
    ((curry (log : Target Unit Val Unit Val) none).chain ()
        [[.str "APP"], [.str "info"], [.str "ready"]]).outcome =
        .returned (.str "ℹ️ APP: ready") ∧
      ((curry (log : Target Unit Val Unit Val) none).chain ()
        [[.str "APP"], [.str "warn"], [.str "Low battery"]]).outcome =
        .returned (.str "⚠️ APP: Low battery") :=
  ⟨logger_example () "APP" "info" "ready" (Or.inl rfl),
    logger_example () "APP" "warn" "Low battery" (Or.inr (Or.inl rfl))⟩

/-- The call `remainingArity({length: 2.5})` returns `2.5`, and `remainingArity` of the
function `curry(add3)(1)` returns `0`. -/
theorem remainingArity_spec_witness :
    remainingArity (.other (.ok (.num (.fin (mkRat 5 2))))) = .ok (.fin (mkRat 5 2)) ∧
      remainingArity (Callable.closure () [Val.num 1]).toArg = .ok (JSNum.ofNat 0) :=
  ⟨(remainingArity_spec Unit Val).2.2.2.2.1.2.1 (mkRat 5 2) (by decide),
    (remainingArity_spec Unit Val).2.1.2.2.2 (.closure () [.num 1])⟩

/-- C9 as stated fails: `remainingArity(undefined)` throws; on the string `"abc"` and on an
array of two elements, which are not functions, the result is `3` and `2`, not `0`; and on
`{length: 2.5}` the result is `2.5`, not an integer. -/
theorem remainingArity_counterexample :
    remainingArity .undefined = .error .typeError ∧
      remainingArity (.str 3) = .ok (JSNum.ofNat 3) ∧
      remainingArity (.array 2) = .ok (JSNum.ofNat 2) ∧
      remainingArity (.other (.ok (.num (.fin (mkRat 5 2))))) = .ok (.fin (mkRat 5 2)) :=
  ⟨rfl, rfl, rfl, rfl⟩

/-- C10 as stated fails: `curry(add3, -1)` is not rejected, and `curry(add3, -1)(1,2,3)` calls
`add3(1,2)`, the argument list without its last value, which gives `NaN`; with the arity `3/2`,
`curry(add3, 1.5)(1)(2)` calls `add3(1)`. -/
theorem invalid_arity_counterexample :
    (curry (add3 : Target Unit Val Unit Val) (some (JSNum.ofInt (-1)))).chain ()
        [[.num 1, .num 2, .num 3]] = ⟨.returned .nan, [((), [.num 1, .num 2])]⟩ ∧
      (curry (add3 : Target Unit Val Unit Val) (some (JSNum.fin (mkRat 3 2)))).chain ()
        [[.num 1], [.num 2]] = ⟨.returned .nan, [((), [.num 1])]⟩ := by
  decide

/-- The arity `-2` on four arguments: the target receives the first two. The arity `5/2` on
the chain `(1)(2)(3,4)`: the first two calls return callables that keep what was supplied,
and the third calls the target on the first two values. -/
theorem invalid_arity_accepted_witness :
    (curry (add3 : Target Unit Val Unit Val) (some (JSNum.ofInt (-2)))).chain ()
        [[.num 1, .num 2, .num 3, .num 4]] = ⟨.returned .nan, [((), [.num 1, .num 2])]⟩ ∧
      (curry (add3 : Target Unit Val Unit Val) (some (JSNum.fin (mkRat 5 2)))).chain ()
        [[.num 1], [.num 2], [.num 3, .num 4]] =
        ⟨.returned .nan, [((), [.num 1, .num 2])]⟩ ∧
      (curry (add3 : Target Unit Val Unit Val) (some (JSNum.fin (mkRat 5 2)))).chain ()
        [[.num 1], [.num 2]] = ⟨.callable (.closure () [.num 1, .num 2]), []⟩ :=
  ⟨(invalid_arity_accepted add3 ()).1 2 [.num 1, .num 2, .num 3, .num 4] (by decide),
    (invalid_arity_accepted add3 ()).2.1 (mkRat 5 2) [[.num 1], [.num 2], [.num 3, .num 4]]
      (by decide) (by decide) (by decide) (by decide),
    (invalid_arity_accepted add3 ()).2.2 (mkRat 5 2) [[.num 1], [.num 2]]
      (by decide) (by decide)⟩

end CurryJS
